import Mathlib

/-!
# Serava reverse proxy — verification of the specification against the source

Shallow embedding of the request-processing pipeline of the Serava HTTP
reverse proxy (`src/proxy.rs`, `src/main.rs`, `src/config.rs`).

Conventions of the embedding:
* Machine integers (`usize`, `u64`) are modelled as `Nat`; the 64-bit
  wrap-around of `AtomicUsize::fetch_add` / `fetch_sub` is made explicit
  through `wrapAdd` / `wrapSub` with modulus `2^64`.
* `f64` token counts and `Instant` timestamps are modelled as `ℚ`.  All
  concrete scenarios exercised below use dyadic rationals whose `f64`
  arithmetic is exact, so the rational model agrees with the floating
  point code on those inputs.
* Byte strings (`Vec<u8>`, `Bytes`) are `List ℕ` with each element < 256
  on real inputs; the UTF-8 validation performed by the code is embedded
  directly (`utf8DecodeAux`).
* Fallible operations return `Option` / `Except`.
-/

set_option maxHeartbeats 1000000

set_option allowUnsafeReducibility true

attribute [semireducible] Rat.add Rat.sub Rat.mul Rat.inv

namespace Serava

/-- The modulus of `usize` arithmetic (64-bit targets). -/
def W64 : ℕ := 2 ^ 64

/-- `AtomicUsize::fetch_add` result: wrapping addition modulo `2^64`. -/
def wrapAdd (a b : ℕ) : ℕ := (a + b) % W64

/-- `AtomicUsize::fetch_sub` result: wrapping subtraction modulo `2^64`. -/
def wrapSub (a b : ℕ) : ℕ := (a + (W64 - b % W64)) % W64

/-- ASCII lower-casing of a single character (`u8::to_ascii_lowercase`). -/
def asciiLowerChar (c : Char) : Char :=
  if 65 ≤ c.toNat ∧ c.toNat ≤ 90 then Char.ofNat (c.toNat + 32) else c

/-- ASCII lower-casing of a string. -/
def asciiLower (s : String) : String := String.mk (s.data.map asciiLowerChar)

/-- `str::eq_ignore_ascii_case`. -/
def eqIgnoreAsciiCase (a b : String) : Bool := asciiLower a = asciiLower b

/-- The hop-by-hop header table of `proxy.rs` (`HOP_BY_HOP_HEADERS`). -/
def HOP_BY_HOP_HEADERS : List String :=
  ["connection", "keep-alive", "proxy-authenticate", "proxy-authorization",
   "te", "trailer", "transfer-encoding", "upgrade", "host"]

/-- `is_hop_by_hop` from `proxy.rs`: case-insensitive membership in the
hop-by-hop table. -/
def is_hop_by_hop (name : String) : Bool :=
  HOP_BY_HOP_HEADERS.any (fun h => eqIgnoreAsciiCase h name)

/-- Decode a UTF-8 byte sequence into characters, rejecting invalid,
overlong, and surrogate encodings: the check performed by
`std::str::from_utf8`. -/
def utf8DecodeAux : List ℕ → Option (List Char)
  | [] => some []
  | b :: rest =>
    if b < 0x80 then
      (utf8DecodeAux rest).map (fun cs => Char.ofNat b :: cs)
    else if b < 0xC2 then
      none
    else if b < 0xE0 then
      match rest with
      | c :: rest2 =>
        if 0x80 ≤ c ∧ c < 0xC0 then
          (utf8DecodeAux rest2).map
            (fun cs => Char.ofNat ((b - 0xC0) * 64 + (c - 0x80)) :: cs)
        else none
      | [] => none
    else if b < 0xF0 then
      match rest with
      | c :: d :: rest2 =>
        if 0x80 ≤ c ∧ c < 0xC0 ∧ 0x80 ≤ d ∧ d < 0xC0 then
          let cp := (b - 0xE0) * 4096 + (c - 0x80) * 64 + (d - 0x80)
          if 0x800 ≤ cp ∧ ¬ (0xD800 ≤ cp ∧ cp ≤ 0xDFFF) then
            (utf8DecodeAux rest2).map (fun cs => Char.ofNat cp :: cs)
          else none
        else none
      | _ => none
    else if b < 0xF5 then
      match rest with
      | c :: d :: e :: rest2 =>
        if 0x80 ≤ c ∧ c < 0xC0 ∧ 0x80 ≤ d ∧ d < 0xC0 ∧ 0x80 ≤ e ∧ e < 0xC0 then
          let cp := (b - 0xF0) * 262144 + (c - 0x80) * 4096 + (d - 0x80) * 64 + (e - 0x80)
          if 0x10000 ≤ cp ∧ cp ≤ 0x10FFFF then
            (utf8DecodeAux rest2).map (fun cs => Char.ofNat cp :: cs)
          else none
        else none
      | _ => none
    else none

/-- `std::str::from_utf8` on a byte vector, producing a string on success. -/
def utf8Decode (l : List ℕ) : Option String :=
  (utf8DecodeAux l).map String.mk

/-- ASCII encoding of a string all of whose characters are below 0x80;
used to write concrete byte-vector literals. -/
def asciiBytes (s : String) : List ℕ := s.data.map Char.toNat

/-- `char::is_control`: Unicode category Cc, i.e. U+0000..U+001F and
U+007F..U+009F. -/
def isControlChar (c : Char) : Bool :=
  c.toNat < 0x20 ∨ (0x7F ≤ c.toNat ∧ c.toNat ≤ 0x9F)

/-- `char::is_whitespace`: the Unicode White_Space property. -/
def isRustWhitespace (c : Char) : Bool :=
  c.toNat ∈ [0x09, 0x0A, 0x0B, 0x0C, 0x0D, 0x20, 0x85, 0xA0, 0x1680,
    0x2000, 0x2001, 0x2002, 0x2003, 0x2004, 0x2005, 0x2006, 0x2007,
    0x2008, 0x2009, 0x200A, 0x2028, 0x2029, 0x202F, 0x205F, 0x3000]

/-- `str::trim`: remove leading and trailing Unicode whitespace. -/
def rustTrim (s : String) : String :=
  String.mk (((s.data.dropWhile isRustWhitespace).reverse.dropWhile
    isRustWhitespace).reverse)

/-- Validity of one byte of an HTTP header name, after the table used by
`http::HeaderName::from_bytes`: ASCII letters, digits, and
the punctuation `! # $ % & ' * + - . ^ _ \x60 | ~`. -/
def headerNameValidChar (c : Char) : Bool :=
  let n := c.toNat
  (48 ≤ n ∧ n ≤ 57) ∨ (97 ≤ n ∧ n ≤ 122) ∨ (65 ≤ n ∧ n ≤ 90) ∨
  n ∈ [33, 35, 36, 37, 38, 39, 42, 43, 45, 46, 94, 95, 96, 124, 126]

/-- `http::HeaderName::from_bytes` succeeds: nonempty and every character
is a token character. -/
def headerNameValid (s : String) : Bool :=
  s ≠ "" ∧ s.data.all headerNameValidChar

/-- `http::HeaderValue::from_str` succeeds: every character is horizontal
tab, a visible character, or beyond ASCII (whose UTF-8 bytes are all
≥ 0x80 and hence legal value bytes). -/
def headerValueValid (s : String) : Bool :=
  s.data.all (fun c => c = '\t' ∨ (32 ≤ c.toNat ∧ c.toNat ≠ 127))

/-- `http::HeaderValue::from_bytes` succeeds: every byte is horizontal
tab or in the visible/obs-text range. -/
def headerValueBytesValid (v : List ℕ) : Bool :=
  v.all (fun b => b = 9 ∨ (32 ≤ b ∧ b ≠ 127))

/-- The UTF-8 byte length of a string (`str::len`). -/
def strByteLen (s : String) : ℕ := s.utf8ByteSize

/--
`sanitize_and_forward_headers` from `proxy.rs` (lines 76-156), as the
list of `(name, value)` pairs attached to the forwarded request builder,
in input order.  Each input pair is a raw header `(name, value-bytes)`.
The code drops, in this order: hop-by-hop names; names empty or longer
than 256 bytes; values longer than 16 KiB; non-UTF-8 values; values with
control characters other than tab; then trims the value, drops invalid
names, drops `authorization` / `proxy-authorization`, and finally drops
values the protocol's own validity check rejects.  (`reqwest` stores the
accepted name lower-cased; we keep the original spelling — header-name
comparison is case-insensitive throughout, so the set of forwarded names
is unchanged.)
-/
def sanitizeHeaders : List (String × List ℕ) → List (String × String)
  | [] => []
  | (name, raw) :: rest =>
    let tail := sanitizeHeaders rest
    if is_hop_by_hop name then tail
    else if strByteLen name = 0 ∨ strByteLen name > 256 then tail
    else if raw.length > 16 * 1024 then tail
    else
      match utf8Decode raw with
      | none => tail
      | some vstr =>
        if vstr.data.any (fun c => isControlChar c ∧ c ≠ '\t') then tail
        else
          let sanitized := rustTrim vstr
          if headerNameValid name then
            if eqIgnoreAsciiCase name "authorization" ∨
               eqIgnoreAsciiCase name "proxy-authorization" then tail
            else if headerValueValid sanitized then (name, sanitized) :: tail
            else tail
          else tail

/-! ## Admission gate (token bucket), `proxy.rs` lines 158-227 and
`main.rs` lines 107-111 -/

instance {ε α : Type} [DecidableEq ε] [DecidableEq α] : DecidableEq (Except ε α) :=
  fun a b =>
    match a, b with
    | Except.ok x, Except.ok y =>
      if h : x = y then isTrue (by rw [h]) else isFalse (by intro hc; cases hc; exact h rfl)
    | Except.error x, Except.error y =>
      if h : x = y then isTrue (by rw [h]) else isFalse (by intro hc; cases hc; exact h rfl)
    | Except.ok _, Except.error _ => isFalse (by intro hc; cases hc)
    | Except.error _, Except.ok _ => isFalse (by intro hc; cases hc)

/-- The per-IP token-bucket table `rate_limit_map`: IP ↦ `(tokens, last_refill)`. -/
abbrev RateMap : Type := List (String × ℚ × ℚ)

/-- Replace the bucket stored for `ip`, or append a fresh binding. -/
def rateMapUpdate (m : RateMap) (ip : String) (v : ℚ × ℚ) : RateMap :=
  if (List.any m fun p => p.1 = ip) then
    List.map (fun p => if p.1 = ip then (ip, v) else p) m
  else m ++ [(ip, v)]

/-- Look up the bucket stored for `ip`. -/
def rateMapFind (m : RateMap) (ip : String) : Option (ℚ × ℚ) :=
  (List.find? (fun p => p.1 = ip) m).map Prod.snd

/--
`check_rate_limit` (`proxy.rs` lines 158-227).  Client-IP resolution from
the `X-Forwarded-For` header and socket metadata happens before the
bucket logic; the resolved result enters the model as `ip?`.  A `none`
per-minute configuration, or an unattributable client, allows the
request.  Otherwise the bucket for the IP — freshly created with
`(0, now)` when absent — is refilled by
`tokens := min(burst, tokens + elapsed * rate_per_sec)`, time-stamped,
and one token is consumed iff at least one is available; otherwise the
check fails with status 429.  The effective burst is
`state.rate_limit_burst.unwrap_or(per_min)`, where `main.rs` set
`state.rate_limit_burst = cfg_burst.or(cfg_per_minute)`.
-/
def check_rate_limit (perMin : Option ℚ) (stateBurst : Option ℚ)
    (m : RateMap) (ip? : Option String) (now : ℚ) :
    Except ℕ Unit × RateMap :=
  match perMin with
  | none => (Except.ok (), m)
  | some pm =>
    match ip? with
    | none => (Except.ok (), m)
    | some ip =>
      let ratePerSec := pm / 60
      let burst := stateBurst.getD pm
      let b0 := (rateMapFind m ip).getD (0, now)
      let elapsed := now - b0.2
      let t1 := min burst (b0.1 + elapsed * ratePerSec)
      if 1 ≤ t1 then (Except.ok (), rateMapUpdate m ip (t1 - 1, now))
      else (Except.error 429, rateMapUpdate m ip (t1, now))

/--
The `rate_limit_burst` field of `AppState` as built by `main.rs`
(lines 108-111): the configured burst, cast to `f64`, falling back to the
configured per-minute rate.
-/
def stateBurstOfConfig (perMinCfg : Option ℕ) (burstCfg : Option ℕ) : Option ℚ :=
  (burstCfg.map (fun v => (v : ℚ))).or (perMinCfg.map (fun v => (v : ℚ)))

/--
The burst cap actually used by the admission gate for a configuration
with rate limiting enabled (`rate_limit_per_minute = some perMinCfg`):
`main.rs` lines 108-111 composed with `proxy.rs` line 203.
-/
def effectiveBurst (perMinCfg : ℕ) (burstCfg : Option ℕ) : ℚ :=
  (stateBurstOfConfig (some perMinCfg) burstCfg).getD (perMinCfg : ℚ)

/--
The three-request scenario of claim C1: `per_minute = 60`, `burst = 1`,
one previously-unseen IP, requests at `t = 0`, `t = 0.5 s`, `t = 1.5 s`.
Each component is the admission result of the corresponding request.
-/
def c1Run : Except ℕ Unit × Except ℕ Unit × Except ℕ Unit :=
  let pm : Option ℚ := some 60
  let b : Option ℚ := some 1
  let ip : Option String := some "203.0.113.7"
  let s1 := check_rate_limit pm b [] ip 0
  let s2 := check_rate_limit pm b s1.2 ip (1/2)
  let s3 := check_rate_limit pm b s2.2 ip (3/2)
  (s1.1, s2.1, s3.1)

/-! ## Response cache, `proxy.rs` lines 25-33, 246-268 and 394-428 -/

/-- `CacheEntry` from `proxy.rs`: stored status, raw header pairs, body
bytes, absolute expiry instant, and byte size. -/
structure CacheEntry where
  status : ℕ
  headers : List (String × List ℕ)
  body : List ℕ
  expires_at : ℚ
  size : ℕ
deriving DecidableEq

/-- The response cache `DashMap<String, CacheEntry>`, as an association
list with (invariantly) distinct keys.  `DashMap` iteration order is
unspecified; the eviction pass sorts its snapshot, so the list order
carries no meaning. -/
abbrev Cache : Type := List (String × CacheEntry)

/-- Sum of the `size` fields of all entries currently in the cache. -/
def entrySizesSum (c : Cache) : ℕ := (c.map (fun p => p.2.size)).sum

/-- Distinctness of the keys of the association list. -/
@[reducible] def KeysNodup (c : Cache) : Prop := (c.map Prod.fst).Nodup

/--
The cache-lookup phase of `proxy_handler` (`proxy.rs` lines 247-267):
on a hit that is still fresh (`now < expires_at`) the entry is served
and the cache is unchanged; on a stale hit the entry is removed — note
that this removal does *not* touch `cache_current_size` — and the
lookup is a miss.
-/
def cacheLookup (c : Cache) (key : String) (now : ℚ) :
    Option CacheEntry × Cache :=
  match c.find? (fun p => p.1 = key) with
  | some pe =>
    if now < pe.2.expires_at then (some pe.2, c)
    else (none, c.filter (fun p => ¬ p.1 = key))
  | none => (none, c)

/-- `DashMap::insert`: replace the entry under `key` or add a binding. -/
def cacheInsertEntry (c : Cache) (key : String) (e : CacheEntry) : Cache :=
  if c.any (fun p => p.1 = key) then
    c.map (fun p => if p.1 = key then (key, e) else p)
  else c ++ [(key, e)]

/-- `DashMap::remove`: the removed entry, if present, and the remaining map. -/
def cacheRemoveKey (c : Cache) (key : String) : Option CacheEntry × Cache :=
  ((c.find? (fun p => p.1 = key)).map Prod.snd,
   c.filter (fun p => ¬ p.1 = key))

/-- One snapshot item of the eviction pass: `(key, expires_at, size)`. -/
abbrev EvictItem : Type := String × ℚ × ℕ

/-- Insert an item into a list sorted ascending by expiry, after all
existing items with the same or an earlier expiry (stability of
`sort_by_key`). -/
def insertByExpiry (x : EvictItem) : List EvictItem → List EvictItem
  | [] => [x]
  | y :: ys => if x.2.1 < y.2.1 then x :: y :: ys else y :: insertByExpiry x ys

/-- `items.sort_by_key(|t| t.1)`: stable sort ascending by `expires_at`. -/
def sortByExpiry (l : List EvictItem) : List EvictItem :=
  l.foldr insertByExpiry []

/--
The eviction loop of `proxy_handler` (`proxy.rs` lines 416-427).
Arguments: remaining snapshot items, the size cap, the loop-local
running total `cur_total` (updated with `saturating_sub`, which `ℕ`
subtraction models exactly), the cache, and the `cache_current_size`
atomic (updated with wrapping `fetch_sub`).  The loop stops as soon as
`cur_total ≤ max_bytes`, and skips items whose key has already vanished.
-/
def evictLoop (maxBytes : ℕ) :
    List EvictItem → ℕ → Cache → ℕ → Cache × ℕ
  | [], _, c, counter => (c, counter)
  | item :: rest, curTotal, c, counter =>
    if curTotal ≤ maxBytes then (c, counter)
    else
      match cacheRemoveKey c item.1 with
      | (some removed, c') =>
        evictLoop maxBytes rest (curTotal - removed.size) c'
          (wrapSub counter removed.size)
      | (none, _) => evictLoop maxBytes rest curTotal c counter

/--
The insert-and-evict sequence of `proxy_handler` (`proxy.rs` lines
394-428): insert the entry, `fetch_add` its size onto
`cache_current_size`, and, when `cache_max_size_bytes` is configured,
snapshot all items, sort them by expiry, and run the eviction loop with
`cur_total` initialised from the counter.  Returns the new cache and
counter.
-/
def cache_insert_and_evict (c : Cache) (counter : ℕ) (key : String)
    (e : CacheEntry) (maxOpt : Option ℕ) : Cache × ℕ :=
  let c1 := cacheInsertEntry c key e
  let counter1 := wrapAdd counter e.size
  match maxOpt with
  | none => (c1, counter1)
  | some maxBytes =>
    let items := sortByExpiry (c1.map (fun p => (p.1, p.2.expires_at, p.2.size)))
    evictLoop maxBytes items counter1 c1 counter1

/-! ## Backend URLs and `Url::join`, `proxy.rs` lines 273-280 -/

/--
A parsed backend base URL (`url::Url` restricted to the http/https
shapes admitted by `config.rs`): scheme, host, optional port, path and
optional query.  Paths and queries are kept in their serialized
(percent-encoded) form, as the `url` crate does.
-/
structure Url where
  scheme : String
  host : String
  port : Option ℕ
  path : String
  query : Option String
deriving DecidableEq

/-- Split a relative reference at its first `?` into path part and
optional query part. -/
def splitQuery (s : String) : String × Option String :=
  let p := s.data.takeWhile (fun c => ¬ c = '?')
  let rest := s.data.dropWhile (fun c => ¬ c = '?')
  match rest with
  | [] => (String.mk p, none)
  | _ :: q => (String.mk p, some (String.mk q))

/-- Does the string start with the given character? -/
def headIs (s : String) (c : Char) : Bool :=
  match s.data with
  | x :: _ => x = c
  | [] => false

/-- Do the first two characters of the string both equal `c`? -/
def headTwoAre (s : String) (c : Char) : Bool :=
  match s.data with
  | x :: y :: _ => x = c ∧ y = c
  | _ => false

/-- Split a character list at every occurrence of `sep`, producing the
pieces as strings (`str::split(sep)` semantics: empty pieces are
preserved, the empty input yields one empty piece). -/
def splitOnChar (sep : Char) : List Char → List Char → List String
  | [], acc => [String.mk acc.reverse]
  | c :: rest, acc =>
    if c = sep then String.mk acc.reverse :: splitOnChar sep rest []
    else splitOnChar sep rest (c :: acc)

/-- Split a character list at every `/`. -/
def splitOnSlash (l : List Char) (acc : List Char) : List String :=
  splitOnChar '/' l acc

/-- Join segments with `/` between them, as a character list. -/
def intercalateSlash : List String → List Char
  | [] => []
  | [s] => s.data
  | s :: rest => s.data ++ '/' :: intercalateSlash rest

/-- One folding step of RFC 3986 `remove_dot_segments` over the segment
list: `.` is dropped, `..` pops the output, anything else is appended. -/
def rdsStep (out : List String) (seg : String) : List String :=
  if seg = "." then out
  else if seg = ".." then out.dropLast
  else out ++ [seg]

/-- RFC 3986 §5.2.4 `remove_dot_segments` on an absolute path, the way
the `url` crate's path parser applies it: segment-wise, with a trailing
`.` or `..` leaving a trailing slash. -/
def removeDotSegments (s : String) : String :=
  let segs := splitOnSlash (s.data.drop 1) []
  let core := segs.foldl rdsStep []
  let core :=
    if segs.getLast? = some "." ∨ segs.getLast? = some ".." then core ++ [""]
    else core
  String.mk ('/' :: intercalateSlash core)

/-- RFC 3986 §5.3.3 path merge: the base (which always has an
authority) contributes its path up to and including the last slash. -/
def mergePaths (basePath rp : String) : String :=
  if basePath = "" then String.mk ('/' :: rp.data)
  else String.mk ((basePath.data.reverse.dropWhile (fun c => ¬ c = '/')).reverse ++ rp.data)

/-- Decimal value of a digit string. -/
def digitsToNat (l : List Char) : ℕ :=
  l.foldl (fun n c => n * 10 + (c.toNat - 48)) 0

/--
Authority-form relative references (`//host[:port]/path`): the `url`
crate replaces the authority.  An empty host, or a non-numeric or
overflowing port, is a parse error — the case in which `Url::join`
fails.  Userinfo and IPv6 literals inside the authority are not
modelled; no claim exercises them.
-/
def joinAuthority (base : Url) (pp : String) (q : Option String) : Option Url :=
  let rest := pp.data.drop 2
  let auth := String.mk (rest.takeWhile (fun c => ¬ c = '/'))
  let pathPart := String.mk (rest.dropWhile (fun c => ¬ c = '/'))
  if auth = "" then none
  else
    let hostPart := String.mk (auth.data.takeWhile (fun c => ¬ c = ':'))
    let portChars := (auth.data.dropWhile (fun c => ¬ c = ':')).drop 1
    let path := if pathPart = "" then "/" else removeDotSegments pathPart
    if hostPart = "" then none
    else if auth.data.all (fun c => ¬ c = ':') then
      some { scheme := base.scheme, host := hostPart, port := none,
             path := path, query := q }
    else if portChars = [] then
      some { scheme := base.scheme, host := hostPart, port := none,
             path := path, query := q }
    else if portChars.all Char.isDigit ∧ digitsToNat portChars < 65536 then
      some { scheme := base.scheme, host := hostPart, port := some (digitsToNat portChars),
             path := path, query := q }
    else none

/--
`base.join(r)` (`url::Url::join`) for a reference `r` carrying no scheme
and, unless it starts with `//`, no authority — the shape of every HTTP
request's path-and-query.  Per RFC 3986 §5.3: an empty reference keeps
the base's path and query; a reference starting with `/` *replaces* the
base's path; any other reference is merged onto the base path's
directory.  The query of a nonempty reference is taken verbatim.
-/
def joinUrl (base : Url) (r : String) : Option Url :=
  let pq := splitQuery r
  let pp := pq.1
  let q := pq.2
  if pp = "" then
    some { base with query := if q.isSome then q else base.query }
  else if headTwoAre pp '/' then joinAuthority base pp q
  else if headIs pp '/' then
    some { scheme := base.scheme, host := base.host, port := base.port,
           path := removeDotSegments pp, query := q }
  else
    some { scheme := base.scheme, host := base.host, port := base.port,
           path := removeDotSegments (mergePaths base.path pp), query := q }

/-! ## Cache-control parsing and TTL resolution, `proxy.rs` lines 324-377 -/

/-- `u64::from_str`: an optional leading `+`, then one or more digits,
rejecting values that do not fit in 64 bits. -/
def parseU64 (s : String) : Option ℕ :=
  let ds :=
    match s.data with
    | c :: rest => if c = '+' then rest else s.data
    | [] => []
  if ds = [] then none
  else if ds.all Char.isDigit then
    if digitsToNat ds < W64 then some (digitsToNat ds) else none
  else none

/-- `str::trim_matches('"')`: strip all leading and trailing double
quotes. -/
def trimMatchesQuote (s : String) : String :=
  String.mk (((s.data.dropWhile (fun c => c = '"')).reverse.dropWhile
    (fun c => c = '"')).reverse)

/--
One comma-separated directive of a `Cache-Control` value, folded over
the running `(s_maxage, max_age, no_store_or_no_cache)` state
(`parse_cache_control_bytes`, `proxy.rs` lines 330-350): the trimmed
part is matched case-insensitively against `no-store` / `no-cache`;
otherwise, when it contains `=`, the key is matched against `s-maxage`
and `max-age` with the value trimmed, unquoted and parsed as `u64`.
-/
def ccStep (st : Option ℕ × Option ℕ × Bool) (part : String) :
    Option ℕ × Option ℕ × Bool :=
  let p := rustTrim part
  if eqIgnoreAsciiCase p "no-store" ∨ eqIgnoreAsciiCase p "no-cache" then
    (st.1, st.2.1, true)
  else if p.data.all (fun c => ¬ c = '=') then st
  else
    let k := rustTrim (String.mk (p.data.takeWhile (fun c => ¬ c = '=')))
    let v := trimMatchesQuote (rustTrim
      (String.mk ((p.data.dropWhile (fun c => ¬ c = '=')).drop 1)))
    if eqIgnoreAsciiCase k "s-maxage" then
      match parseU64 v with
      | some n => (some n, st.2.1, st.2.2)
      | none => st
    else if eqIgnoreAsciiCase k "max-age" then
      match parseU64 v with
      | some n => (st.1, some n, st.2.2)
      | none => st
    else st

/-- `parse_cache_control_bytes`: UTF-8-decode the header value and fold
over its comma-separated parts; a non-UTF-8 value parses as
`(none, none, false)`. -/
def parse_cache_control_bytes (hv : List ℕ) : Option ℕ × Option ℕ × Bool :=
  match utf8Decode hv with
  | some s => (splitOnChar ',' s.data []).foldl ccStep (none, none, false)
  | none => (none, none, false)

/--
TTL resolution of `proxy_handler` (`proxy.rs` lines 356-370): the first
`Cache-Control` header (case-insensitive name match over the mirrored
response headers) is parsed; the TTL is `s-maxage`, else `max-age`, else
the configured `cache_ttl_secs`.  The second component reports whether
the backend forbade caching (`no-store` / `no-cache`).
-/
def resolveTtl (respHeaders : List (String × List ℕ)) (cfgTtl : Option ℕ) :
    Option ℕ × Bool :=
  let parsed :=
    match respHeaders.find? (fun p => eqIgnoreAsciiCase p.1 "cache-control") with
    | some p => parse_cache_control_bytes p.2
    | none => (none, none, false)
  ((parsed.1.or parsed.2.1).or cfgTtl, parsed.2.2)

/-- The cacheability gate (`proxy.rs` lines 373-377). -/
def should_cache (isGet : Bool) (status : ℕ) (forbids : Bool)
    (ttl : Option ℕ) (cacheEnabled : Bool) : Bool :=
  isGet ∧ status = 200 ∧ ¬ forbids ∧ ttl.isSome ∧ cacheEnabled

/-! ## Response assembly and the proxy handler pipeline,
`proxy.rs` lines 229-440 -/

/-- `http::StatusCode::from_u16` succeeds exactly on 100..=999; an
invalid status poisons the response builder, whose `body` call then
fails and is mapped to 500. -/
def statusCodeValid (n : ℕ) : Bool := 100 ≤ n ∧ n ≤ 999

/-- A response body: buffered bytes (cached / buffered-for-caching
paths) or a pass-through stream. -/
inductive BodySource where
  | bytes (b : List ℕ)
  | streamed
deriving DecidableEq

/-- A response emitted to the client. -/
structure ClientResp where
  status : ℕ
  headers : List (String × List ℕ)
  body : BodySource
deriving DecidableEq

/--
Synthesis of a client response from a fresh cache entry (`proxy.rs`
lines 251-261): every stored header pair is re-parsed with
`HeaderName::from_bytes` / `HeaderValue::from_bytes` and silently
skipped when either fails; the body is the stored bytes; the final
`body(..)` call fails — mapped to 500 — exactly when the builder was
poisoned, i.e. when the stored status is not a valid status code.
-/
def buildCachedResponse (e : CacheEntry) : Except ℕ ClientResp :=
  if statusCodeValid e.status then
    Except.ok
      { status := e.status,
        headers := e.headers.filter
          (fun p => headerNameValid p.1 ∧ headerValueBytesValid p.2),
        body := BodySource.bytes e.body }
  else Except.error 500

/-- The shared application state (`AppState` in `proxy.rs`), restricted
to the fields the pipeline reads or writes.  The HTTP client and the
backend timeout act only through the abstract send outcome. -/
structure AppState where
  backends : List Url
  counter : ℕ
  rate_limit_map : RateMap
  rate_limit_per_minute : Option ℚ
  rate_limit_burst : Option ℚ
  response_cache : Option Cache
  cache_ttl_secs : Option ℕ
  cache_max_size_bytes : Option ℕ
  cache_current_size : ℕ
deriving DecidableEq

/-- Result of reading the upstream body to completion while buffering. -/
inductive BodyRead where
  | ok (bytes : List ℕ)
  | readError
deriving DecidableEq

/-- Upstream response headers-and-body as observed by the handler. -/
structure UpstreamResp where
  status : ℕ
  headers : List (String × List ℕ)
  bodyResult : BodyRead
deriving DecidableEq

/-- Outcome of `timeout(backend_timeout, req_builder.send())`. -/
inductive SendOutcome where
  | timeout
  | transportError
  | success (r : UpstreamResp)
deriving DecidableEq

/-- One inbound request together with the environment's behaviour:
resolved client IP, current instant, and the upstream send outcome. -/
structure HandlerInput where
  method : String
  uri : String
  pathAndQuery : Option String
  headers : List (String × List ℕ)
  clientIp : Option String
  now : ℚ
  send : SendOutcome
deriving DecidableEq

/-- The handler's observable effects: the client result, the upstream
request actually dispatched (none when no upstream call was made), and
the updated shared state. -/
structure HandlerOutput where
  result : Except ℕ ClientResp
  upstream : Option (Url × List (String × String))
  state : AppState
deriving DecidableEq

/-- The cache key (`proxy.rs` line 244): `"<METHOD> <URI>"`. -/
def cacheKey (inp : HandlerInput) : String :=
  String.mk (inp.method.data ++ ' ' :: inp.uri.data)

/-- Placeholder base URL for the (never-taken) out-of-range branch of
backend indexing; `idx < |backends|` always holds. -/
def defaultUrl : Url :=
  { scheme := "http", host := "", port := none, path := "/", query := none }

/--
The tail of the pipeline (`proxy.rs` lines 270-439): backend selection
by wrapping fetch-and-increment, URL join (500 on failure), header
sanitization, the upstream send (504 on deadline, 502 on transport
error), hop-by-hop stripping of response headers, TTL resolution, and
the cache decision — on the caching path the body is buffered (502 on a
mid-body read failure), the response is assembled (500 on builder
failure), and the entry is inserted with its eviction pass; otherwise
the body is streamed through.
-/
def proxy_forward (st : AppState) (inp : HandlerInput) : HandlerOutput :=
  let idx := st.counter % st.backends.length
  let backend := st.backends.getD idx defaultUrl
  let st1 := { st with counter := wrapAdd st.counter 1 }
  let path := inp.pathAndQuery.getD "/"
  match joinUrl backend path with
  | none => { result := Except.error 500, upstream := none, state := st1 }
  | some u =>
    let fwd := sanitizeHeaders inp.headers
    match inp.send with
    | SendOutcome.timeout =>
      { result := Except.error 504, upstream := some (u, fwd), state := st1 }
    | SendOutcome.transportError =>
      { result := Except.error 502, upstream := some (u, fwd), state := st1 }
    | SendOutcome.success r =>
      let respHeaders := r.headers.filter (fun p => ¬ is_hop_by_hop p.1)
      let tf := resolveTtl respHeaders st1.cache_ttl_secs
      let sc := should_cache (inp.method = "GET") r.status tf.2 tf.1
        st1.response_cache.isSome
      if sc then
        match r.bodyResult with
        | BodyRead.readError =>
          { result := Except.error 502, upstream := some (u, fwd), state := st1 }
        | BodyRead.ok bytes =>
          if statusCodeValid r.status then
            let resp : ClientResp :=
              { status := r.status, headers := respHeaders,
                body := BodySource.bytes bytes }
            match st1.response_cache, tf.1 with
            | some cache, some ttl =>
              let e : CacheEntry :=
                { status := resp.status, headers := respHeaders, body := bytes,
                  expires_at := inp.now + (ttl : ℚ), size := bytes.length }
              let ce := cache_insert_and_evict cache st1.cache_current_size
                (cacheKey inp) e st1.cache_max_size_bytes
              { result := Except.ok resp, upstream := some (u, fwd),
                state := { st1 with response_cache := some ce.1,
                                    cache_current_size := ce.2 } }
            | _, _ =>
              { result := Except.ok resp, upstream := some (u, fwd), state := st1 }
          else
            { result := Except.error 500, upstream := some (u, fwd), state := st1 }
      else
        if statusCodeValid r.status then
          let resp : ClientResp :=
            { status := r.status, headers := respHeaders, body := BodySource.streamed }
          { result := Except.ok resp, upstream := some (u, fwd), state := st1 }
        else
          { result := Except.error 500, upstream := some (u, fwd), state := st1 }

/--
`proxy_handler` (`proxy.rs` lines 229-440): reject with 502 when the
backend list is empty (before any upstream call); run the admission
gate, whose token-bucket update persists even on denial; consult the
response cache — a fresh hit is served from the stored entry with no
upstream call, a stale hit is removed (without adjusting
`cache_current_size`) and treated as a miss; then forward upstream.
-/
def proxy_handler (st : AppState) (inp : HandlerInput) : HandlerOutput :=
  if st.backends.isEmpty then
    { result := Except.error 502, upstream := none, state := st }
  else
    let rl := check_rate_limit st.rate_limit_per_minute st.rate_limit_burst
      st.rate_limit_map inp.clientIp inp.now
    let st1 := { st with rate_limit_map := rl.2 }
    match rl.1 with
    | Except.error s => { result := Except.error s, upstream := none, state := st1 }
    | Except.ok _ =>
      match st1.response_cache with
      | some cache =>
        let lk := cacheLookup cache (cacheKey inp) inp.now
        match lk.1 with
        | some e =>
          { result := buildCachedResponse e, upstream := none,
            state := { st1 with response_cache := some lk.2 } }
        | none =>
          proxy_forward { st1 with response_cache := some lk.2 } inp
      | none => proxy_forward st1 inp

/-! ## Concrete states used by the counterexamples and witnesses -/

/-- A backend base URL with a non-root path. -/
def apiBase : Url :=
  { scheme := "http", host := "h", port := none, path := "/api/", query := none }

/-- State for the C4 scenario: one backend, rate limiting disabled,
caching enabled with a 60-second default TTL, no size cap, empty cache. -/
def c4State : AppState :=
  { backends := [apiBase], counter := 0, rate_limit_map := [],
    rate_limit_per_minute := none, rate_limit_burst := none,
    response_cache := some [], cache_ttl_secs := some 60,
    cache_max_size_bytes := none, cache_current_size := 0 }

/-- A GET request whose upstream answer is `200` with
`Cache-Control: max-age=0` and body bytes `"hi"`. -/
def c4Input : HandlerInput :=
  { method := "GET", uri := "/x", pathAndQuery := some "/x", headers := [],
    clientIp := none, now := 0,
    send := SendOutcome.success
      { status := 200,
        headers := [("cache-control", asciiBytes "max-age=0")],
        bodyResult := BodyRead.ok [104, 105] } }

/-- The entry the C4 scenario stores: TTL 0, so `expires_at` is the
insertion instant itself. -/
def c4Entry : CacheEntry :=
  { status := 200, headers := [("cache-control", asciiBytes "max-age=0")],
    body := [104, 105], expires_at := 0, size := 2 }

/-! ## Backend selection sequence, `proxy.rs` lines 270-271 -/

/-- The backend cursor after `k` forwarded requests: starts at 0, and
each selection performs a wrapping `fetch_add(1)`. -/
def counterAfter : ℕ → ℕ
  | 0 => 0
  | k + 1 => wrapAdd (counterAfter k) 1

/-- The backend index served to the `k`-th (1-indexed) request reaching
backend selection, over `n` backends: the cursor value it observes,
modulo `n`. -/
def nthBackendIndex (k n : ℕ) : ℕ := counterAfter (k - 1) % n

/-! ## Pipeline-stage predicates used to state the error-mapping claims -/

/-- The admission gate passes for this state and input. -/
@[reducible] def rateLimitOk (st : AppState) (inp : HandlerInput) : Prop :=
  (check_rate_limit st.rate_limit_per_minute st.rate_limit_burst
    st.rate_limit_map inp.clientIp inp.now).1 = Except.ok ()

/-- The cache-lookup phase does not serve the request: the cache is
disabled, or the lookup returns a miss. -/
def cacheMiss (st : AppState) (inp : HandlerInput) : Prop :=
  ∀ c, st.response_cache = some c → (cacheLookup c (cacheKey inp) inp.now).1 = none

/-- The backend the forward phase selects. -/
def selectedBackend (st : AppState) : Url :=
  st.backends.getD (st.counter % st.backends.length) defaultUrl

/-- The path-and-query string joined onto the backend. -/
def requestPath (inp : HandlerInput) : String := inp.pathAndQuery.getD "/"

/-- The state `proxy_forward` runs in, after the admission gate updated
the token-bucket map and the (missing) cache lookup possibly removed a
stale entry. -/
def stateAfterAdmission (st : AppState) (inp : HandlerInput) : AppState :=
  let rl := check_rate_limit st.rate_limit_per_minute st.rate_limit_burst
    st.rate_limit_map inp.clientIp inp.now
  let st1 := { st with rate_limit_map := rl.2 }
  match st1.response_cache with
  | some cache =>
    { st1 with response_cache := some (cacheLookup cache (cacheKey inp) inp.now).2 }
  | none => st1

/-- The cacheability decision the forward phase takes for upstream
response `r` (mirrors the `sc` computation inside `proxy_forward`). -/
def forwardShouldCache (st : AppState) (inp : HandlerInput) (r : UpstreamResp) : Bool :=
  let respHeaders := r.headers.filter (fun p => ¬ is_hop_by_hop p.1)
  let tf := resolveTtl respHeaders st.cache_ttl_secs
  should_cache (inp.method = "GET") r.status tf.2 tf.1 st.response_cache.isSome

/-! ## Sequential cache histories (for the size-accounting claims) -/

/-- One cache interaction of a handler execution: the lookup phase
(`proxy.rs` lines 247-267) or the insert-plus-eviction phase (lines
394-428). -/
inductive CacheOp where
  | lookup (key : String) (now : ℚ)
  | insert (key : String) (e : CacheEntry)
deriving DecidableEq

/-- The shared cache state: the map and the `cache_current_size` atomic. -/
structure CacheSt where
  cache : Cache
  counter : ℕ
deriving DecidableEq

/-- Apply one cache operation. -/
def applyOp (maxOpt : Option ℕ) (s : CacheSt) : CacheOp → CacheSt
  | CacheOp.lookup k t => { cache := (cacheLookup s.cache k t).2, counter := s.counter }
  | CacheOp.insert k e =>
    let ce := cache_insert_and_evict s.cache s.counter k e maxOpt
    { cache := ce.1, counter := ce.2 }

/-- Run a sequence of cache operations from a given state. -/
def runOpsFrom (maxOpt : Option ℕ) (s : CacheSt) : List CacheOp → CacheSt
  | [] => s
  | op :: rest => runOpsFrom maxOpt (applyOp maxOpt s op) rest

/-- Run a sequence of cache operations from the initial (empty, zero)
state of `main.rs`. -/
def runOps (maxOpt : Option ℕ) (ops : List CacheOp) : CacheSt :=
  runOpsFrom maxOpt { cache := [], counter := 0 } ops

/--
Ghost accounting: the bytes an operation makes the size counter leak.
A stale-hit removal removes the entry without decrementing the counter
(`proxy.rs` line 265); an insert over an existing key replaces the old
entry while adding only the new entry's size (lines 405-406).
-/
def opLeak (s : CacheSt) : CacheOp → ℕ
  | CacheOp.lookup k t =>
    match s.cache.find? (fun p => p.1 = k) with
    | some pe => if t < pe.2.expires_at then 0 else pe.2.size
    | none => 0
  | CacheOp.insert k _ =>
    match s.cache.find? (fun p => p.1 = k) with
    | some pe => pe.2.size
    | none => 0

/-- Total leaked bytes along a run. -/
def leakedFrom (maxOpt : Option ℕ) (s : CacheSt) : List CacheOp → ℕ
  | [] => 0
  | op :: rest => opLeak s op + leakedFrom maxOpt (applyOp maxOpt s op) rest

/-- Total leaked bytes along a run from the initial state. -/
def leakedOps (maxOpt : Option ℕ) (ops : List CacheOp) : ℕ :=
  leakedFrom maxOpt { cache := [], counter := 0 } ops

/-- The size an operation feeds into `fetch_add`. -/
def opInsertSize : CacheOp → ℕ
  | CacheOp.insert _ e => e.size
  | CacheOp.lookup _ _ => 0

/-- Total bytes ever inserted along a sequence. -/
def totalInserted (ops : List CacheOp) : ℕ := (ops.map opInsertSize).sum

/-- The operation sequence of the C3 counterexample: insert a 5-byte
entry expiring at `t = 10`, then look it up at `t = 20`. -/
def c3CexOps : List CacheOp :=
  [CacheOp.insert "GET /y"
    { status := 200, headers := [], body := [0, 1, 2, 3, 4], expires_at := 10, size := 5 },
   CacheOp.lookup "GET /y" 20]

/-- A cache entry with one header pair that fails re-parsing (`@` is not
a token character, and byte 1 is not a legal value byte) and one that
parses; used to exercise the cached-response synthesis. -/
def c10WitnessEntry : CacheEntry :=
  { status := 200, headers := [("x@bad", [1]), ("etag", [65])],
    body := [1, 2, 3], expires_at := 5, size := 3 }

/-- State for the join-failure scenario: one backend, everything else
disabled. -/
def c5FailState : AppState :=
  { backends := [apiBase], counter := 0, rate_limit_map := [],
    rate_limit_per_minute := none, rate_limit_burst := none,
    response_cache := none, cache_ttl_secs := none,
    cache_max_size_bytes := none, cache_current_size := 0 }

/-- A request whose path-and-query is an authority-form reference with a
non-numeric port, on which `Url::join` fails. -/
def c5FailInput : HandlerInput :=
  { method := "GET", uri := "//evil:bad/", pathAndQuery := some "//evil:bad/",
    headers := [], clientIp := none, now := 0, send := SendOutcome.timeout }

/-- State with an empty backend list. -/
def c9EmptyState : AppState :=
  { backends := [], counter := 0, rate_limit_map := [],
    rate_limit_per_minute := none, rate_limit_burst := none,
    response_cache := none, cache_ttl_secs := none,
    cache_max_size_bytes := none, cache_current_size := 0 }

/-- State for the upstream-failure scenarios: one backend, caching
enabled (empty cache, default TTL 60 s), rate limiting disabled. -/
def c9State : AppState :=
  { backends := [apiBase], counter := 0, rate_limit_map := [],
    rate_limit_per_minute := none, rate_limit_burst := none,
    response_cache := some [], cache_ttl_secs := some 60,
    cache_max_size_bytes := none, cache_current_size := 0 }

/-- A GET request whose upstream send hits the deadline. -/
def c9TimeoutInput : HandlerInput :=
  { method := "GET", uri := "/x", pathAndQuery := some "/x", headers := [],
    clientIp := none, now := 0, send := SendOutcome.timeout }

/-- A GET request whose upstream send fails with a transport error. -/
def c9TransportInput : HandlerInput :=
  { method := "GET", uri := "/x", pathAndQuery := some "/x", headers := [],
    clientIp := none, now := 0, send := SendOutcome.transportError }

/-- A GET request whose upstream 200 response fails mid-body while being
buffered for caching. -/
def c9BodyErrInput : HandlerInput :=
  { method := "GET", uri := "/x", pathAndQuery := some "/x", headers := [],
    clientIp := none, now := 0,
    send := SendOutcome.success
      { status := 200, headers := [], bodyResult := BodyRead.readError } }

/-! # Theorems -/

/-- The cursor after `k` selections equals `k` reduced modulo `2^64`. -/
theorem counterAfter_eq (k : ℕ) : counterAfter k = k % W64 := by
  have hW : W64 = 18446744073709551616 := by norm_num [W64]
  induction k with
  | zero => simp [counterAfter]
  | succ n ih =>
    simp only [counterAfter, wrapAdd, ih, hW]
    omega

/--
Claim C1 (counterexample): with `per_minute = 60`, `burst = 1`, and two
requests 500 ms apart from the same previously-unseen IP, it is *not*
the case that the first request is admitted, the second denied with 429,
and a third request 1500 ms after the first admitted: the bucket is
created with 0 tokens, so the first request is itself denied.
-/
theorem c1_first_request_denied :
    ¬ (c1Run.1 = Except.ok () ∧ c1Run.2.1 = Except.error 429 ∧
       c1Run.2.2 = Except.ok ()) := by decide

/--
Claim C1 (amended): with `per_minute = 60`, `burst = 1`, and a
previously-unseen IP, the first request (at `t = 0`) is denied with 429
— the bucket is created with 0 tokens — the second request 500 ms later
is denied with 429, and the third request 1500 ms after the first is
admitted, under the refill rule
`tokens := min(burst, tokens + elapsed_seconds * rate_per_sec)`.
-/
theorem c1_scenario_denies_first_request :
    c1Run = (Except.error 429, Except.error 429, Except.ok ()) := by decide

/--
Claim C7 (counterexample): with rate limiting enabled at
`rate_limit_per_minute = 60` and a configured `rate_limit_burst = 0`,
the effective burst cap used by the admission gate is 0, not 60:
`main.rs` propagates `Some(0.0)`, and `unwrap_or` never fires.
-/
theorem c7_zero_burst_not_defaulted :
    effectiveBurst 60 (some 0) = 0 ∧ ¬ effectiveBurst 60 (some 0) = (60 : ℚ) := by
  decide

/--
Claim C7 (amended): when rate limiting is enabled and `rate_limit_burst`
is unset, the effective burst cap equals `rate_limit_per_minute`; a
configured burst — including zero — is used as-is.
-/
theorem c7_burst_defaulting :
    (∀ perMinCfg : ℕ, effectiveBurst perMinCfg none = (perMinCfg : ℚ)) ∧
    (∀ perMinCfg b : ℕ, effectiveBurst perMinCfg (some b) = (b : ℚ)) := by
  constructor <;> intros <;> simp [effectiveBurst, stateBurstOfConfig, Option.or]

/--
Claim C8 (counterexample): the unbounded form of the round-robin claim
fails once the 64-bit cursor wraps: with three backends, request number
`2^64 + 1` is sent to backend 0, while `(k - 1) mod 3 = 2^64 mod 3 = 1`.
-/
theorem c8_wraparound_counterexample :
    nthBackendIndex (W64 + 1) 3 = 0 ∧
    ¬ nthBackendIndex (W64 + 1) 3 = (W64 + 1 - 1) % 3 := by
  have h := counterAfter_eq (W64 + 1 - 1)
  have hW : W64 = 18446744073709551616 := by norm_num [W64]
  rw [nthBackendIndex, h]
  rw [hW]
  norm_num

/--
Claim C8 (amended): before the 64-bit cursor wraps — for every
`1 ≤ k ≤ 2^64` — the `k`-th request reaching backend selection is sent
to backend `(k - 1) mod |backends|`; in particular, with two backends,
requests 1, 3, 5 go to backend 0 and requests 2, 4 to backend 1.
-/
theorem c8_round_robin :
    (∀ k n : ℕ, 1 ≤ k → k ≤ W64 → 0 < n → nthBackendIndex k n = (k - 1) % n) ∧
    nthBackendIndex 1 2 = 0 ∧ nthBackendIndex 2 2 = 1 ∧ nthBackendIndex 3 2 = 0 ∧
    nthBackendIndex 4 2 = 1 ∧ nthBackendIndex 5 2 = 0 := by
  have hW : 0 < W64 := by norm_num [W64]
  refine ⟨?_, by decide, by decide, by decide, by decide, by decide⟩
  intro k n hk hkW hn
  rw [nthBackendIndex, counterAfter_eq, Nat.mod_eq_of_lt (show k - 1 < W64 by omega)]

/-- Claim C8 witness: the amended statement applied at `k = 3`, `n = 2`. -/
theorem c8_round_robin_witness : nthBackendIndex 3 2 = (3 - 1) % 2 :=
  c8_round_robin.1 3 2 (by norm_num) (by norm_num [W64]) (by norm_num)

/--
Claim C2 (counterexample): inserting a 10-byte entry into an empty cache
with `cache_max_size_bytes = 5` evicts the just-inserted entry in its
own insertion pass, leaving an empty cache: the inserted entry is *not*
still present after the insert-plus-eviction pass.
-/
theorem c2_inserted_entry_evicted :
    (cache_insert_and_evict [] 0 "GET /big"
      { status := 200, headers := [], body := [0, 1, 2, 3, 4, 5, 6, 7, 8, 9],
        expires_at := 100, size := 10 } (some 5)).1 = [] ∧
    (cache_insert_and_evict [] 0 "GET /big"
      { status := 200, headers := [], body := [0, 1, 2, 3, 4, 5, 6, 7, 8, 9],
        expires_at := 100, size := 10 } (some 5)).2 = 0 := by decide

/--
Claim C3 (counterexample): after sequentially inserting a 5-byte entry
expiring at `t = 10` and looking it up at `t = 20` — which removes the
expired entry without decrementing the counter — `cache_current_size`
is 5 while the cache holds no entries, so the counter does not equal the
sum of stored entry sizes.
-/
theorem c3_counter_diverges :
    (runOps none c3CexOps).counter = 5 ∧
    entrySizesSum (runOps none c3CexOps).cache = 0 ∧
    ¬ ((runOps none c3CexOps).counter =
        entrySizesSum (runOps none c3CexOps).cache) := by decide

/--
Claim C4 (counterexample): a GET whose upstream 200 response carries
`Cache-Control: max-age=0` (no `no-store` / `no-cache`), with caching
enabled, *does* insert an entry into the response cache — the TTL
resolves to `some 0`, so the cacheability gate passes.
-/
theorem c4_maxage0_entry_inserted :
    (proxy_handler c4State c4Input).state.response_cache =
      some [("GET /x", c4Entry)] ∧
    ¬ (proxy_handler c4State c4Input).state.response_cache = some [] := by decide

/-- Replacing the entries keyed `k` makes the first `k`-keyed slot hold
the new entry. -/
theorem find?_map_replace (k : String) (e : CacheEntry) :
    ∀ c : Cache, c.any (fun p => p.1 = k) = true →
      (c.map (fun p => if p.1 = k then (k, e) else p)).find?
        (fun p => p.1 = k) = some (k, e) := by
  intro c
  induction c with
  | nil => intro h; simp at h
  | cons p rest ih =>
    intro h
    by_cases hp : p.1 = k
    · simp only [List.map_cons, if_pos hp]
      exact List.find?_cons_of_pos _ (by simp)
    · have hrest : rest.any (fun p => p.1 = k) = true := by
        simp only [List.any_cons, Bool.or_eq_true, decide_eq_true_eq] at h
        rcases h with h | h
        · exact absurd h hp
        · exact h
      simp only [List.map_cons, if_neg hp]
      rw [List.find?_cons_of_neg _ (by simp [hp]), ih hrest]

/-- After `DashMap::insert`, looking up the inserted key finds the new
entry. -/
theorem find?_insertEntry (c : Cache) (k : String) (e : CacheEntry) :
    (cacheInsertEntry c k e).find? (fun p => p.1 = k) = some (k, e) := by
  unfold cacheInsertEntry
  by_cases h : c.any (fun p => p.1 = k) = true
  · rw [if_pos h]
    exact find?_map_replace k e c h
  · rw [if_neg h]
    have hnone : c.find? (fun p => p.1 = k) = none := by
      rw [List.find?_eq_none]
      intro p hp hk
      exact h (List.any_eq_true.mpr ⟨p, hp, hk⟩)
    rw [List.find?_append, hnone]
    simp [List.find?]

/--
Claim C4 (amended): a 200 GET response carrying
`Cache-Control: max-age=0` (and no `no-store`/`no-cache`) resolves to a
TTL of 0 seconds and is therefore cacheable: an entry *is* inserted,
with `expires_at` equal to the insertion instant.  Because serving from
cache requires `now < expires_at` strictly, any lookup of that key at or
after the insertion instant misses (and removes the entry), so the
stale entry is never served.
-/
theorem c4_maxage0_never_served :
    (∀ cfgTtl : Option ℕ,
       resolveTtl [("cache-control", asciiBytes "max-age=0")] cfgTtl =
         (some 0, false)) ∧
    (∀ (c : Cache) (cnt : ℕ) (k : String) (e : CacheEntry) (t : ℚ),
       e.expires_at ≤ t →
       (cacheLookup (cache_insert_and_evict c cnt k e none).1 k t).1 = none) := by
  constructor
  · intro cfgTtl
    have h1 : List.find? (fun p => eqIgnoreAsciiCase p.1 "cache-control")
          [("cache-control", asciiBytes "max-age=0")] =
        some ("cache-control", asciiBytes "max-age=0") := by decide
    have h2 : parse_cache_control_bytes (asciiBytes "max-age=0") =
        (none, some 0, false) := by decide
    simp [resolveTtl, h1, h2, Option.or]
  · intro c cnt k e t ht
    show (cacheLookup (cacheInsertEntry c k e) k t).1 = none
    unfold cacheLookup
    rw [find?_insertEntry]
    simp only
    rw [if_neg (by exact not_lt.mpr ht)]

/-- Claim C4 witness: the amended statement applied to the concrete C4
scenario entry. -/
theorem c4_maxage0_never_served_witness :
    resolveTtl [("cache-control", asciiBytes "max-age=0")] (some 60) =
      (some 0, false) ∧
    (cacheLookup (cache_insert_and_evict [] 0 "GET /x" c4Entry none).1
      "GET /x" 0).1 = none :=
  ⟨c4_maxage0_never_served.1 (some 60),
   c4_maxage0_never_served.2 [] 0 "GET /x" c4Entry 0 (by decide)⟩

/--
Claim C10: on a fresh cache hit, every stored header pair that fails to
re-parse as a valid header name and value is silently omitted from the
synthesized response — pairs that re-parse are kept — while the
response carries the stored status and the byte-identical stored body;
the path yields 500 exactly when final response assembly fails, i.e.
when the stored status is not a valid status code.
-/
theorem c10_cached_response_synthesis :
    ∀ e : CacheEntry,
      (statusCodeValid e.status = true →
        ∃ r, buildCachedResponse e = Except.ok r ∧ r.status = e.status ∧
          r.body = BodySource.bytes e.body ∧
          (∀ p ∈ e.headers,
            ¬ (headerNameValid p.1 = true ∧ headerValueBytesValid p.2 = true) →
            p ∉ r.headers) ∧
          (∀ p ∈ e.headers, headerNameValid p.1 = true →
            headerValueBytesValid p.2 = true → p ∈ r.headers)) ∧
      (buildCachedResponse e = Except.error 500 ↔
        statusCodeValid e.status = false) := by
  intro e
  constructor
  · intro hv
    refine ⟨_, by rw [buildCachedResponse, if_pos hv], rfl, rfl, ?_, ?_⟩
    · intro p _ hbad hmem
      rw [List.mem_filter] at hmem
      refine hbad ?_
      have := hmem.2
      simpa using this
    · intro p hp h1 h2
      rw [List.mem_filter]
      exact ⟨hp, by simp [h1, h2]⟩
  · constructor
    · intro h
      by_contra hval
      rw [Bool.not_eq_false] at hval
      rw [buildCachedResponse, if_pos hval] at h
      exact Except.noConfusion h
    · intro h
      rw [buildCachedResponse, if_neg (by simp [h])]

/-- Claim C10 witness: the synthesis theorem applied to a concrete entry
with one unparsable and one parsable stored header pair. -/
theorem c10_cached_response_synthesis_witness :
    ∃ r, buildCachedResponse c10WitnessEntry = Except.ok r ∧
      r.status = 200 ∧ r.body = BodySource.bytes [1, 2, 3] ∧
      ("x@bad", [1]) ∉ r.headers ∧ ("etag", [65]) ∈ r.headers := by
  obtain ⟨r, h1, h2, h3, h4, h5⟩ :=
    (c10_cached_response_synthesis c10WitnessEntry).1 (by decide)
  refine ⟨r, h1, ?_, ?_, ?_, ?_⟩
  · rw [h2]; rfl
  · rw [h3]; rfl
  · exact h4 ("x@bad", [1]) (by decide) (by decide)
  · exact h5 ("etag", [65]) (by decide) (by decide) (by decide)

/-- When the backend list is nonempty, the admission gate passes, and
the cache does not serve the request, the handler is the forward phase
run in the post-admission state. -/
theorem proxy_handler_eq_forward (st : AppState) (inp : HandlerInput)
    (hb : st.backends.isEmpty = false) (hrl : rateLimitOk st inp)
    (hcm : cacheMiss st inp) :
    proxy_handler st inp = proxy_forward (stateAfterAdmission st inp) inp := by
  unfold rateLimitOk at hrl
  cases hcr : st.response_cache with
  | none =>
    simp only [proxy_handler, stateAfterAdmission, hb, Bool.false_eq_true,
      if_false, hcr, hrl]
  | some c =>
    have hl := hcm c hcr
    simp only [proxy_handler, stateAfterAdmission, hb, Bool.false_eq_true,
      if_false, hcr, hrl, hl]

/-- The post-admission state selects the same backend. -/
theorem stateAfterAdmission_backend (st : AppState) (inp : HandlerInput) :
    selectedBackend (stateAfterAdmission st inp) = selectedBackend st := by
  cases hcr : st.response_cache <;>
    simp [stateAfterAdmission, selectedBackend, hcr]

/-- The post-admission state takes the same cacheability decision. -/
theorem stateAfterAdmission_shouldCache (st : AppState) (inp : HandlerInput)
    (r : UpstreamResp) :
    forwardShouldCache (stateAfterAdmission st inp) inp r =
      forwardShouldCache st inp r := by
  cases hcr : st.response_cache <;>
    simp [stateAfterAdmission, forwardShouldCache, hcr]

/-- A failed URL join makes the forward phase emit 500 with no upstream
request. -/
theorem proxy_forward_join_none (st : AppState) (inp : HandlerInput)
    (hj : joinUrl (selectedBackend st) (requestPath inp) = none) :
    (proxy_forward st inp).result = Except.error 500 ∧
    (proxy_forward st inp).upstream = none := by
  unfold selectedBackend requestPath at hj
  simp only [proxy_forward, hj]
  exact ⟨trivial, trivial⟩

/-- A deadline expiry makes the forward phase emit 504. -/
theorem proxy_forward_timeout (st : AppState) (inp : HandlerInput) (u : Url)
    (hj : joinUrl (selectedBackend st) (requestPath inp) = some u)
    (hs : inp.send = SendOutcome.timeout) :
    (proxy_forward st inp).result = Except.error 504 := by
  unfold selectedBackend requestPath at hj
  simp only [proxy_forward, hj, hs]

/-- A transport error makes the forward phase emit 502. -/
theorem proxy_forward_transport (st : AppState) (inp : HandlerInput) (u : Url)
    (hj : joinUrl (selectedBackend st) (requestPath inp) = some u)
    (hs : inp.send = SendOutcome.transportError) :
    (proxy_forward st inp).result = Except.error 502 := by
  unfold selectedBackend requestPath at hj
  simp only [proxy_forward, hj, hs]

/-- A mid-body read failure on the buffering (caching) path makes the
forward phase emit 502. -/
theorem proxy_forward_body_error (st : AppState) (inp : HandlerInput)
    (u : Url) (r : UpstreamResp)
    (hj : joinUrl (selectedBackend st) (requestPath inp) = some u)
    (hs : inp.send = SendOutcome.success r)
    (hbody : r.bodyResult = BodyRead.readError)
    (hsc : forwardShouldCache st inp r = true) :
    (proxy_forward st inp).result = Except.error 502 := by
  unfold selectedBackend requestPath at hj
  unfold forwardShouldCache at hsc
  simp only [proxy_forward, hj, hs, hsc, if_true, hbody]

/--
Claim C5 (counterexample): for the backend base `http://h/api/` and the
request path-and-query `/users?x=1`, the joined upstream URL has path
`/users` — the backend's path `/api/` is *not* a prefix of the
resulting path (the absolute-path reference replaces it), though the
query is preserved verbatim.
-/
theorem c5_backend_path_replaced :
    joinUrl apiBase "/users?x=1" =
      some { scheme := "http", host := "h", port := none, path := "/users",
             query := some "x=1" } ∧
    apiBase.path.data.isPrefixOf "/users".data = false := by decide

/--
Claim C5 (amended): for every backend base `b` and request
path-and-query `p`, the upstream URL is `b.join(p)` per RFC 3986
relative resolution: when `p`'s path part begins with `/` (and is not
authority-form `//…`), the result keeps `b`'s scheme, host and port,
*replaces* `b`'s path with `p`'s path part (after dot-segment
normalization), and preserves the query verbatim; if the join fails the
handler emits 500.
-/
theorem c5_join_replaces_base_path :
    (∀ (b : Url) (p pp : String) (q : Option String),
        splitQuery p = (pp, q) → headIs pp '/' = true →
        headTwoAre pp '/' = false →
        joinUrl b p =
          some { scheme := b.scheme, host := b.host, port := b.port,
                 path := removeDotSegments pp, query := q }) ∧
    (∀ (st : AppState) (inp : HandlerInput),
        st.backends.isEmpty = false → rateLimitOk st inp → cacheMiss st inp →
        joinUrl (selectedBackend st) (requestPath inp) = none →
        (proxy_handler st inp).result = Except.error 500) := by
  constructor
  · intro b p pp q hsp h1 h2
    have hne : ¬ pp = "" := by
      intro h
      rw [h] at h1
      exact absurd h1 (by decide)
    simp only [joinUrl, hsp]
    rw [if_neg hne, if_neg (by simp [h2]), if_pos (by simp [h1])]
  · intro st inp hb hrl hcm hj
    rw [proxy_handler_eq_forward st inp hb hrl hcm]
    have hj' : joinUrl (selectedBackend (stateAfterAdmission st inp))
        (requestPath inp) = none := by
      rw [stateAfterAdmission_backend]; exact hj
    exact (proxy_forward_join_none _ inp hj').1

/-- Claim C5 witness: the join semantics applied to `http://h/api/` and
`/users?x=1`, and the 500 mapping applied to a request whose
authority-form path fails to join. -/
theorem c5_join_replaces_base_path_witness :
    joinUrl apiBase "/users?x=1" =
      some { scheme := apiBase.scheme, host := apiBase.host,
             port := apiBase.port, path := removeDotSegments "/users",
             query := some "x=1" } ∧
    (proxy_handler c5FailState c5FailInput).result = Except.error 500 := by
  constructor
  · exact c5_join_replaces_base_path.1 apiBase "/users?x=1" "/users"
      (some "x=1") (by decide) (by decide) (by decide)
  · exact c5_join_replaces_base_path.2 c5FailState c5FailInput (by decide)
      (by decide) (fun c hc => by cases hc) (by decide)

/--
Claim C9: the handler maps failures to statuses as the specification
says: an empty backend list yields 502 with no upstream request ever
dispatched; once a request reaches the upstream send (backends
nonempty, admission passed, cache miss, join succeeded), a deadline
expiry yields 504, a transport error yields 502, and a mid-body read
failure while buffering a cacheable response yields 502.
-/
theorem c9_error_status_mapping :
    ∀ (st : AppState) (inp : HandlerInput),
      (st.backends = [] →
        (proxy_handler st inp).result = Except.error 502 ∧
        (proxy_handler st inp).upstream = none) ∧
      (st.backends.isEmpty = false → rateLimitOk st inp → cacheMiss st inp →
        ∀ u, joinUrl (selectedBackend st) (requestPath inp) = some u →
          ((inp.send = SendOutcome.timeout →
             (proxy_handler st inp).result = Except.error 504) ∧
           (inp.send = SendOutcome.transportError →
             (proxy_handler st inp).result = Except.error 502) ∧
           (∀ r, inp.send = SendOutcome.success r →
             r.bodyResult = BodyRead.readError →
             forwardShouldCache st inp r = true →
             (proxy_handler st inp).result = Except.error 502))) := by
  intro st inp
  constructor
  · intro hb
    have : st.backends.isEmpty = true := by rw [hb]; rfl
    simp only [proxy_handler, this, if_true]
    exact ⟨trivial, trivial⟩
  · intro hb hrl hcm u hj
    rw [proxy_handler_eq_forward st inp hb hrl hcm]
    have hj' : joinUrl (selectedBackend (stateAfterAdmission st inp))
        (requestPath inp) = some u := by
      rw [stateAfterAdmission_backend]; exact hj
    refine ⟨?_, ?_, ?_⟩
    · intro hs; exact proxy_forward_timeout _ inp u hj' hs
    · intro hs; exact proxy_forward_transport _ inp u hj' hs
    · intro r hs hbody hsc
      refine proxy_forward_body_error _ inp u r hj' hs hbody ?_
      rw [stateAfterAdmission_shouldCache]
      exact hsc

/-- Claim C9 witness: the error mapping applied to four concrete
scenarios — empty backend list, upstream deadline, transport error, and
mid-body read failure while buffering. -/
theorem c9_error_status_mapping_witness :
    (proxy_handler c9EmptyState c9TimeoutInput).result = Except.error 502 ∧
    (proxy_handler c9State c9TimeoutInput).result = Except.error 504 ∧
    (proxy_handler c9State c9TransportInput).result = Except.error 502 ∧
    (proxy_handler c9State c9BodyErrInput).result = Except.error 502 := by
  have hmiss : ∀ inp : HandlerInput, cacheMiss c9State inp := by
    intro inp c hc
    rw [show c9State.response_cache = some [] from rfl] at hc
    injection hc with h
    subst h
    rfl
  refine ⟨((c9_error_status_mapping c9EmptyState c9TimeoutInput).1 rfl).1,
    ?_, ?_, ?_⟩
  · exact (((c9_error_status_mapping c9State c9TimeoutInput).2 (by decide)
      (by decide) (hmiss _)
      { scheme := "http", host := "h", port := none, path := "/x", query := none }
      (by decide)).1) rfl
  · exact (((c9_error_status_mapping c9State c9TransportInput).2 (by decide)
      (by decide) (hmiss _)
      { scheme := "http", host := "h", port := none, path := "/x", query := none }
      (by decide)).2.1) rfl
  · exact (((c9_error_status_mapping c9State c9BodyErrInput).2 (by decide)
      (by decide) (hmiss _)
      { scheme := "http", host := "h", port := none, path := "/x", query := none }
      (by decide)).2.2)
      { status := 200, headers := [], bodyResult := BodyRead.readError }
      rfl rfl (by decide)

/--
Claim C6: header hygiene — for every inbound header list, no header
name forwarded upstream by the sanitizer is, case-insensitively, a
hop-by-hop header or `authorization` / `proxy-authorization`.
-/
theorem c6_header_hygiene :
    ∀ (hs : List (String × List ℕ)) (n v : String),
      (n, v) ∈ sanitizeHeaders hs →
      is_hop_by_hop n = false ∧
      eqIgnoreAsciiCase n "authorization" = false ∧
      eqIgnoreAsciiCase n "proxy-authorization" = false := by
  intro hs
  induction hs with
  | nil => intro n v h; simp [sanitizeHeaders] at h
  | cons p rest ih =>
    obtain ⟨name, raw⟩ := p
    intro n v h
    simp only [sanitizeHeaders] at h
    by_cases h1 : is_hop_by_hop name = true
    · rw [if_pos h1] at h; exact ih n v h
    · rw [if_neg h1] at h
      by_cases h2 : strByteLen name = 0 ∨ strByteLen name > 256
      · rw [if_pos h2] at h; exact ih n v h
      · rw [if_neg h2] at h
        by_cases h3 : raw.length > 16 * 1024
        · rw [if_pos h3] at h; exact ih n v h
        · rw [if_neg h3] at h
          cases hu : utf8Decode raw with
          | none => simp only [hu] at h; exact ih n v h
          | some vstr =>
            simp only [hu] at h
            by_cases h4 :
                (vstr.data.any fun c => decide (isControlChar c = true ∧ c ≠ '\t')) = true
            · rw [if_pos h4] at h; exact ih n v h
            · rw [if_neg h4] at h
              by_cases h5 : headerNameValid name = true
              · rw [if_pos h5] at h
                by_cases h6 : eqIgnoreAsciiCase name "authorization" = true ∨
                    eqIgnoreAsciiCase name "proxy-authorization" = true
                · rw [if_pos h6] at h; exact ih n v h
                · rw [if_neg h6] at h
                  by_cases h7 : headerValueValid (rustTrim vstr) = true
                  · rw [if_pos h7] at h
                    rcases List.mem_cons.mp h with heq | hmem
                    · obtain ⟨hn, -⟩ := Prod.ext_iff.mp heq
                      subst hn
                      push_neg at h6
                      refine ⟨?_, ?_, ?_⟩
                      · exact Bool.eq_false_iff.mpr h1
                      · exact Bool.eq_false_iff.mpr h6.1
                      · exact Bool.eq_false_iff.mpr h6.2
                    · exact ih n v hmem
                  · rw [if_neg h7] at h; exact ih n v h
              · rw [if_neg h5] at h; exact ih n v h

/-- Claim C6 witness: the hygiene invariant applied to the forwarded
header produced from a concrete request carrying `X-Trace: ok`. -/
theorem c6_header_hygiene_witness :
    is_hop_by_hop "X-Trace" = false ∧
    eqIgnoreAsciiCase "X-Trace" "authorization" = false ∧
    eqIgnoreAsciiCase "X-Trace" "proxy-authorization" = false :=
  c6_header_hygiene [("X-Trace", asciiBytes "ok")] "X-Trace" "ok" (by decide)

/-- Wrapping addition below the modulus is plain addition. -/
theorem wrapAdd_eq_of_lt {a b : ℕ} (h : a + b < W64) : wrapAdd a b = a + b := by
  rw [wrapAdd, Nat.mod_eq_of_lt h]

/-- Wrapping subtraction of a smaller value from an in-range value is
plain subtraction. -/
theorem wrapSub_eq_of_le {a b : ℕ} (hba : b ≤ a) (ha : a < W64) :
    wrapSub a b = a - b := by
  have hb : b < W64 := lt_of_le_of_lt hba ha
  rw [wrapSub, Nat.mod_eq_of_lt hb]
  have h1 : a + (W64 - b) = W64 + (a - b) := by omega
  rw [h1, Nat.add_mod_left, Nat.mod_eq_of_lt (by omega)]

theorem entrySizesSum_nil : entrySizesSum [] = 0 := rfl

theorem entrySizesSum_cons (p : String × CacheEntry) (c : Cache) :
    entrySizesSum (p :: c) = p.2.size + entrySizesSum c := by
  simp [entrySizesSum]

/-- The size of any stored entry is at most the total stored size. -/
theorem size_le_entrySizesSum {c : Cache} {p : String × CacheEntry}
    (hp : p ∈ c) : p.2.size ≤ entrySizesSum c := by
  induction c with
  | nil => cases hp
  | cons q rest ih =>
    rw [entrySizesSum_cons]
    rcases List.mem_cons.mp hp with h | h
    · subst h; exact Nat.le_add_right _ _
    · exact le_trans (ih h) (Nat.le_add_left _ _)

/-- Filtering preserves key distinctness. -/
theorem keysNodup_filter (c : Cache) (pred : String × CacheEntry → Bool)
    (h : KeysNodup c) : KeysNodup (c.filter pred) :=
  ((List.filter_sublist c).map Prod.fst).nodup h

/-- A key with no binding filters to the same list. -/
theorem removeKey_of_find?_none {c : Cache} {k : String}
    (h : c.find? (fun p => p.1 = k) = none) :
    c.filter (fun p => ¬ p.1 = k) = c := by
  rw [List.filter_eq_self]
  intro p hp
  have h2 := List.find?_eq_none.mp h p hp
  simp at h2 ⊢
  exact h2

/-- The found binding has the looked-up key. -/
theorem find?_key {c : Cache} {k : String} {pe : String × CacheEntry}
    (h : c.find? (fun p => p.1 = k) = some pe) : pe.1 = k := by
  have := List.find?_some h
  simpa using this

/-- Removing a present key removes exactly its entry's size from the
total (keys distinct). -/
theorem sum_filter_remove {k : String} :
    ∀ {c : Cache}, KeysNodup c → ∀ {pe : String × CacheEntry},
      c.find? (fun p => p.1 = k) = some pe →
      entrySizesSum (c.filter (fun p => ¬ p.1 = k)) + pe.2.size =
        entrySizesSum c := by
  intro c
  induction c with
  | nil => intro _ pe h; simp at h
  | cons q rest ih =>
    intro hnd pe h
    have hnd2 : (q.1 :: rest.map Prod.fst).Nodup := by
      simpa only [KeysNodup, List.map_cons] using hnd
    have hnd' : (rest.map Prod.fst).Nodup ∧ q.1 ∉ rest.map Prod.fst := by
      have := List.nodup_cons.mp hnd2
      exact ⟨this.2, this.1⟩
    by_cases hq : q.1 = k
    · rw [List.find?_cons_of_pos _ (by simp [hq])] at h
      injection h with h
      subst h
      have hrest : ∀ p ∈ rest, ¬ p.1 = k := by
        intro p hp hpk
        exact hnd'.2 (by
          rw [hq, ← hpk]
          exact List.mem_map.mpr ⟨p, hp, rfl⟩)
      rw [List.filter_cons_of_neg (by simp [hq])]
      rw [List.filter_eq_self.mpr (by intro p hp; simpa using hrest p hp)]
      rw [entrySizesSum_cons]
      omega
    · rw [List.find?_cons_of_neg _ (by simp [hq])] at h
      have hs := ih hnd'.1 h
      rw [List.filter_cons_of_pos (by simp [hq]), entrySizesSum_cons,
        entrySizesSum_cons]
      omega

/-- `DashMap::insert` preserves key distinctness. -/
theorem keysNodup_insertEntry (c : Cache) (k : String) (e : CacheEntry)
    (h : KeysNodup c) : KeysNodup (cacheInsertEntry c k e) := by
  unfold cacheInsertEntry
  by_cases ha : c.any (fun p => p.1 = k) = true
  · rw [if_pos ha]
    have hkeys : (c.map (fun p => if p.1 = k then (k, e) else p)).map Prod.fst =
        c.map Prod.fst := by
      rw [List.map_map]
      apply List.map_congr_left
      intro p _
      by_cases hp : p.1 = k
      · simp [hp]
      · simp [hp]
    show ((c.map _).map Prod.fst).Nodup
    rw [hkeys]
    exact h
  · rw [if_neg ha]
    show ((c ++ [(k, e)]).map Prod.fst).Nodup
    rw [List.map_append]
    rw [List.nodup_append]
    refine ⟨h, List.nodup_singleton _, ?_⟩
    intro x hx
    simp only [List.map_cons, List.map_nil, List.mem_singleton]
    intro hk
    subst hk
    obtain ⟨p, hp, hpk⟩ := List.mem_map.mp hx
    exact ha (List.any_eq_true.mpr ⟨p, hp, by simp [hpk]⟩)

/-- Inserting a fresh key adds exactly the entry's size. -/
theorem sum_insertEntry_fresh {c : Cache} {k : String} {e : CacheEntry}
    (h : ¬ c.any (fun p => p.1 = k) = true) :
    entrySizesSum (cacheInsertEntry c k e) = entrySizesSum c + e.size := by
  unfold cacheInsertEntry
  rw [if_neg h, entrySizesSum, List.map_append, List.sum_append]
  simp [entrySizesSum]

/-- Overwriting a present key under the replacement map swaps the old
size for the new one (keys distinct). -/
theorem sum_map_replace_overwrite {k : String} {e : CacheEntry} :
    ∀ {c : Cache}, KeysNodup c → ∀ {pe : String × CacheEntry},
      c.find? (fun p => p.1 = k) = some pe →
      entrySizesSum (c.map (fun p => if p.1 = k then (k, e) else p)) +
          pe.2.size =
        entrySizesSum c + e.size := by
  intro c
  induction c with
  | nil => intro _ pe h; simp at h
  | cons q rest ih =>
    intro hnd pe h
    have hnd2 : (q.1 :: rest.map Prod.fst).Nodup := by
      simpa only [KeysNodup, List.map_cons] using hnd
    have hnd' := List.nodup_cons.mp hnd2
    by_cases hq : q.1 = k
    · rw [List.find?_cons_of_pos _ (by simp [hq])] at h
      injection h with h
      subst h
      have hrest : rest.map (fun p => if p.1 = k then (k, e) else p) =
          rest.map id := by
        apply List.map_congr_left
        intro p hp
        have hpk : ¬ p.1 = k := by
          intro hpk
          exact hnd'.1 (by
            rw [hq, ← hpk]
            exact List.mem_map.mpr ⟨p, hp, rfl⟩)
        simp [hpk]
      rw [List.map_cons, if_pos hq, hrest, List.map_id, entrySizesSum_cons,
        entrySizesSum_cons]
      have hee : ((k, e) : String × CacheEntry).2.size = e.size := rfl
      simp only [hee]
      omega
    · rw [List.find?_cons_of_neg _ (by simp [hq])] at h
      have hs := ih hnd'.2 h
      rw [List.map_cons, if_neg hq, entrySizesSum_cons, entrySizesSum_cons]
      omega

/-- Overwriting a present key swaps the old size for the new one (keys
distinct). -/
theorem sum_insertEntry_overwrite {k : String} {e : CacheEntry} {c : Cache}
    (hnd : KeysNodup c) {pe : String × CacheEntry}
    (h : c.find? (fun p => p.1 = k) = some pe) :
    entrySizesSum (cacheInsertEntry c k e) + pe.2.size =
      entrySizesSum c + e.size := by
  have ha : c.any (fun p => p.1 = k) = true :=
    List.any_eq_true.mpr ⟨pe, List.mem_of_find?_eq_some h,
      @List.find?_some _ (fun p => decide (p.1 = k)) pe c h⟩
  unfold cacheInsertEntry
  rw [if_pos ha]
  exact sum_map_replace_overwrite hnd h

/-- Membership is preserved by the stable insertion step. -/
theorem mem_insertByExpiry {x y : EvictItem} :
    ∀ {l : List EvictItem}, y ∈ insertByExpiry x l ↔ y = x ∨ y ∈ l := by
  intro l
  induction l with
  | nil => simp [insertByExpiry]
  | cons z zs ih =>
    rw [insertByExpiry]
    by_cases h : x.2.1 < z.2.1
    · rw [if_pos h]
      simp only [List.mem_cons]
    · rw [if_neg h]
      simp only [List.mem_cons, ih]
      tauto

/-- Membership is preserved by the eviction snapshot sort. -/
theorem mem_sortByExpiry {x : EvictItem} :
    ∀ {l : List EvictItem}, x ∈ sortByExpiry l ↔ x ∈ l := by
  intro l
  induction l with
  | nil => simp [sortByExpiry]
  | cons z zs ih =>
    show x ∈ insertByExpiry z (sortByExpiry zs) ↔ _
    rw [mem_insertByExpiry, ih, List.mem_cons]

/--
The eviction loop preserves key distinctness and the exact difference
between the size counter and the stored total (each removal subtracts
the removed entry's size from both), and never increases the counter.
-/
theorem evictLoop_spec (maxB : ℕ) :
    ∀ (items : List EvictItem) (curTotal : ℕ) (c : Cache) (counter d : ℕ),
      KeysNodup c → counter = entrySizesSum c + d → counter < W64 →
      KeysNodup (evictLoop maxB items curTotal c counter).1 ∧
      (evictLoop maxB items curTotal c counter).2 =
        entrySizesSum (evictLoop maxB items curTotal c counter).1 + d ∧
      (evictLoop maxB items curTotal c counter).2 ≤ counter := by
  intro items
  induction items with
  | nil =>
    intro curTotal c counter d hnd heq _
    exact ⟨hnd, heq, le_refl _⟩
  | cons it rest ih =>
    intro curTotal c counter d hnd heq hlt
    rw [evictLoop]
    by_cases hct : curTotal ≤ maxB
    · rw [if_pos hct]
      exact ⟨hnd, heq, le_refl _⟩
    · rw [if_neg hct]
      cases hf : c.find? (fun p => p.1 = it.1) with
      | none =>
        have hcr : cacheRemoveKey c it.1 =
            (none, c.filter (fun p => ¬ p.1 = it.1)) := by
          rw [cacheRemoveKey, hf]
          rfl
        simp only [hcr]
        exact ih curTotal c counter d hnd heq hlt
      | some pe =>
        have hcr : cacheRemoveKey c it.1 =
            (some pe.2, c.filter (fun p => ¬ p.1 = it.1)) := by
          rw [cacheRemoveKey, hf]
          rfl
        simp only [hcr]
        have hsum := sum_filter_remove hnd hf
        have hszle : pe.2.size ≤ entrySizesSum c :=
          size_le_entrySizesSum (List.mem_of_find?_eq_some hf)
        have hsub : wrapSub counter pe.2.size = counter - pe.2.size :=
          wrapSub_eq_of_le (by omega) hlt
        rw [hsub]
        obtain ⟨a, b, cle⟩ := ih (curTotal - pe.2.size)
          (c.filter (fun p => ¬ p.1 = it.1)) (counter - pe.2.size) d
          (keysNodup_filter c _ hnd) (by omega) (by omega)
        exact ⟨a, b, le_trans cle (by omega)⟩

/--
When the snapshot covers every key of the cache and the running total
dominates the stored total, the eviction loop drives the stored total
down to the cap (possibly by emptying the cache).
-/
theorem evictLoop_bound (maxB : ℕ) :
    ∀ (items : List EvictItem) (curTotal : ℕ) (c : Cache) (counter : ℕ),
      KeysNodup c → entrySizesSum c ≤ curTotal →
      (∀ key ∈ c.map Prod.fst, key ∈ items.map (fun it => it.1)) →
      entrySizesSum (evictLoop maxB items curTotal c counter).1 ≤ maxB := by
  intro items
  induction items with
  | nil =>
    intro curTotal c counter _ _ hcov
    have hkeys : c.map Prod.fst = [] := by
      rw [List.eq_nil_iff_forall_not_mem]
      intro x hx
      simpa using hcov x hx
    have hc : c = [] := by
      cases c with
      | nil => rfl
      | cons p rest => simp at hkeys
    subst hc
    show entrySizesSum [] ≤ maxB
    rw [entrySizesSum_nil]
    exact Nat.zero_le _
  | cons it rest ih =>
    intro curTotal c counter hnd hle hcov
    rw [evictLoop]
    by_cases hct : curTotal ≤ maxB
    · rw [if_pos hct]
      exact le_trans hle hct
    · rw [if_neg hct]
      cases hf : c.find? (fun p => p.1 = it.1) with
      | none =>
        have hcr : cacheRemoveKey c it.1 =
            (none, c.filter (fun p => ¬ p.1 = it.1)) := by
          rw [cacheRemoveKey, hf]
          rfl
        simp only [hcr]
        refine ih curTotal c counter hnd hle ?_
        intro key hkey
        have hkc2 := hcov key hkey
        rw [List.map_cons] at hkc2
        rcases List.mem_cons.mp hkc2 with h | h
        · exfalso
          obtain ⟨p, hp, hpk⟩ := List.mem_map.mp hkey
          have := List.find?_eq_none.mp hf p hp
          simp only [decide_eq_true_eq] at this
          exact this (by rw [hpk, h])
        · exact h
      | some pe =>
        have hcr : cacheRemoveKey c it.1 =
            (some pe.2, c.filter (fun p => ¬ p.1 = it.1)) := by
          rw [cacheRemoveKey, hf]
          rfl
        simp only [hcr]
        have hsum := sum_filter_remove hnd hf
        have hszle : pe.2.size ≤ entrySizesSum c :=
          size_le_entrySizesSum (List.mem_of_find?_eq_some hf)
        refine ih (curTotal - pe.2.size) _ (wrapSub counter pe.2.size)
          (keysNodup_filter c _ hnd) (by omega) ?_
        intro key hkey
        obtain ⟨p, hp, hpk⟩ := List.mem_map.mp hkey
        have hpmem := List.mem_filter.mp hp
        have hkne : ¬ key = it.1 := by
          have := hpmem.2
          simp only [decide_eq_true_eq] at this
          rw [← hpk]
          exact this
        have hkc : key ∈ c.map Prod.fst :=
          List.mem_map.mpr ⟨p, hpmem.1, hpk⟩
        have hkc2 := hcov key hkc
        rw [List.map_cons] at hkc2
        rcases List.mem_cons.mp hkc2 with h | h
        · exact absurd h hkne
        · exact h

/--
Claim C2 (amended): from any cache state whose keys are distinct and
whose size counter dominates the stored total, an insert with its
eviction pass leaves `sum(entry.size) ≤ cache_max_size_bytes` — but the
entry inserted by that call is *not* guaranteed to survive its own
insertion pass (it is evicted, e.g., when it alone exceeds the cap, or
when its expiry is earliest), so the stored total can only be bounded by
the cap itself, not by protecting the newest entry.
-/
theorem c2_insert_eviction_size_bound :
    ∀ (c : Cache) (counter : ℕ) (k : String) (e : CacheEntry) (maxB : ℕ),
      KeysNodup c → entrySizesSum c ≤ counter → counter + e.size < W64 →
      entrySizesSum (cache_insert_and_evict c counter k e (some maxB)).1 ≤
        maxB := by
  intro c counter k e maxB hnd hle hlt
  have hre : cache_insert_and_evict c counter k e (some maxB) =
      evictLoop maxB
        (sortByExpiry
          ((cacheInsertEntry c k e).map (fun p => (p.1, p.2.expires_at, p.2.size))))
        (wrapAdd counter e.size) (cacheInsertEntry c k e)
        (wrapAdd counter e.size) := rfl
  rw [hre, wrapAdd_eq_of_lt hlt]
  have hnd1 := keysNodup_insertEntry c k e hnd
  have hsum1 : entrySizesSum (cacheInsertEntry c k e) ≤ counter + e.size := by
    cases hf : c.find? (fun p => p.1 = k) with
    | none =>
      have hna : ¬ c.any (fun p => p.1 = k) = true := by
        intro ha
        obtain ⟨p, hp, hpk⟩ := List.any_eq_true.mp ha
        exact absurd hpk (by simpa using List.find?_eq_none.mp hf p hp)
      have h2 : entrySizesSum (cacheInsertEntry c k e) =
          entrySizesSum c + e.size := sum_insertEntry_fresh hna
      omega
    | some pe =>
      have h2 : entrySizesSum (cacheInsertEntry c k e) + pe.2.size =
          entrySizesSum c + e.size := sum_insertEntry_overwrite hnd hf
      omega
  refine evictLoop_bound maxB _ _ _ _ hnd1 hsum1 ?_
  intro key hkey
  obtain ⟨p, hp, hpk⟩ := List.mem_map.mp hkey
  exact List.mem_map.mpr ⟨(p.1, p.2.expires_at, p.2.size),
    mem_sortByExpiry.mpr (List.mem_map.mpr ⟨p, hp, rfl⟩), hpk⟩

/-- Claim C2 witness: the size bound applied to a 1-byte insert into the
empty cache with a 5-byte cap. -/
theorem c2_insert_eviction_size_bound_witness :
    entrySizesSum (cache_insert_and_evict [] 0 "GET /w"
      { status := 200, headers := [], body := [7], expires_at := 1, size := 1 }
      (some 5)).1 ≤ 5 :=
  c2_insert_eviction_size_bound [] 0 "GET /w"
    { status := 200, headers := [], body := [7], expires_at := 1, size := 1 }
    5 (by decide) (by decide) (by decide)

/--
The insert-plus-eviction pass preserves key distinctness, shifts the
counter/total difference by exactly the overwritten entry's size (zero
for a fresh key), and never raises the counter above its pre-insert
value plus the inserted size.
-/
theorem insert_evict_spec (c : Cache) (counter : ℕ) (k : String)
    (e : CacheEntry) (maxOpt : Option ℕ) (d : ℕ)
    (hnd : KeysNodup c) (heq : counter = entrySizesSum c + d)
    (hlt : counter + e.size < W64) :
    KeysNodup (cache_insert_and_evict c counter k e maxOpt).1 ∧
    (cache_insert_and_evict c counter k e maxOpt).2 =
      entrySizesSum (cache_insert_and_evict c counter k e maxOpt).1 +
        (d + (match c.find? (fun p => p.1 = k) with
              | some pe => pe.2.size
              | none => 0)) ∧
    (cache_insert_and_evict c counter k e maxOpt).2 ≤ counter + e.size := by
  have hnd1 := keysNodup_insertEntry c k e hnd
  have hkey : counter + e.size = entrySizesSum (cacheInsertEntry c k e) +
      (d + (match c.find? (fun p => p.1 = k) with
            | some pe => pe.2.size
            | none => 0)) := by
    cases hf : c.find? (fun p => p.1 = k) with
    | none =>
      have hna : ¬ c.any (fun p => p.1 = k) = true := by
        intro ha
        obtain ⟨p, hp, hpk⟩ := List.any_eq_true.mp ha
        exact absurd hpk (by simpa using List.find?_eq_none.mp hf p hp)
      have h2 : entrySizesSum (cacheInsertEntry c k e) =
          entrySizesSum c + e.size := sum_insertEntry_fresh hna
      have hm : (match (none : Option (String × CacheEntry)) with
          | some pe => pe.2.size
          | none => 0) = 0 := rfl
      rw [hm]
      omega
    | some pe =>
      have h2 : entrySizesSum (cacheInsertEntry c k e) + pe.2.size =
          entrySizesSum c + e.size := sum_insertEntry_overwrite hnd hf
      have hm : (match some pe with
          | some pe => pe.2.size
          | none => 0) = pe.2.size := rfl
      rw [hm]
      omega
  cases maxOpt with
  | none =>
    have hre : cache_insert_and_evict c counter k e none =
        (cacheInsertEntry c k e, wrapAdd counter e.size) := rfl
    rw [hre, wrapAdd_eq_of_lt hlt]
    exact ⟨hnd1, hkey, le_refl _⟩
  | some maxB =>
    have hre : cache_insert_and_evict c counter k e (some maxB) =
        evictLoop maxB
          (sortByExpiry
            ((cacheInsertEntry c k e).map
              (fun p => (p.1, p.2.expires_at, p.2.size))))
          (wrapAdd counter e.size) (cacheInsertEntry c k e)
          (wrapAdd counter e.size) := rfl
    rw [hre, wrapAdd_eq_of_lt hlt]
    exact evictLoop_spec maxB _ (counter + e.size) (cacheInsertEntry c k e)
      (counter + e.size) _ hnd1 hkey hlt

/-- One cache operation preserves the accounting relation, shifting the
difference by exactly the bytes it leaks. -/
theorem applyOp_spec (maxOpt : Option ℕ) (s : CacheSt) (op : CacheOp) (d : ℕ)
    (hnd : KeysNodup s.cache) (heq : s.counter = entrySizesSum s.cache + d)
    (hlt : s.counter + opInsertSize op < W64) :
    KeysNodup (applyOp maxOpt s op).cache ∧
    (applyOp maxOpt s op).counter =
      entrySizesSum (applyOp maxOpt s op).cache + (d + opLeak s op) ∧
    (applyOp maxOpt s op).counter ≤ s.counter + opInsertSize op := by
  cases op with
  | lookup k t =>
    cases hf : s.cache.find? (fun p => p.1 = k) with
    | none =>
      have hap : applyOp maxOpt s (CacheOp.lookup k t) = s := by
        show CacheSt.mk (cacheLookup s.cache k t).2 s.counter = s
        simp only [cacheLookup, hf]
      have hleak : opLeak s (CacheOp.lookup k t) = 0 := by
        simp only [opLeak, hf]
      rw [hap, hleak]
      exact ⟨hnd, by omega, by simp [opInsertSize]⟩
    | some pe =>
      by_cases hfresh : t < pe.2.expires_at
      · have hap : applyOp maxOpt s (CacheOp.lookup k t) = s := by
          show CacheSt.mk (cacheLookup s.cache k t).2 s.counter = s
          simp only [cacheLookup, hf, if_pos hfresh]
        have hleak : opLeak s (CacheOp.lookup k t) = 0 := by
          simp only [opLeak, hf, if_pos hfresh]
        rw [hap, hleak]
        exact ⟨hnd, by omega, by simp [opInsertSize]⟩
      · have hap : applyOp maxOpt s (CacheOp.lookup k t) =
            CacheSt.mk (s.cache.filter (fun p => ¬ p.1 = k)) s.counter := by
          show CacheSt.mk (cacheLookup s.cache k t).2 s.counter = _
          simp only [cacheLookup, hf, if_neg hfresh]
        have hleak : opLeak s (CacheOp.lookup k t) = pe.2.size := by
          simp only [opLeak, hf, if_neg hfresh]
        have hsum := sum_filter_remove hnd hf
        rw [hap, hleak]
        refine ⟨keysNodup_filter _ _ hnd, ?_, by simp [opInsertSize]⟩
        show s.counter =
          entrySizesSum (s.cache.filter (fun p => ¬ p.1 = k)) + (d + pe.2.size)
        omega
  | insert k e =>
    obtain ⟨a, b, c3⟩ := insert_evict_spec s.cache s.counter k e maxOpt d hnd
      heq (by simpa [opInsertSize] using hlt)
    exact ⟨a, b, c3⟩

/-- Running a sequence of cache operations preserves the accounting
relation, the accumulated difference being exactly the leaked bytes. -/
theorem runOpsFrom_spec (maxOpt : Option ℕ) :
    ∀ (ops : List CacheOp) (s : CacheSt) (d : ℕ),
      KeysNodup s.cache → s.counter = entrySizesSum s.cache + d →
      s.counter + totalInserted ops < W64 →
      KeysNodup (runOpsFrom maxOpt s ops).cache ∧
      (runOpsFrom maxOpt s ops).counter =
        entrySizesSum (runOpsFrom maxOpt s ops).cache +
          (d + leakedFrom maxOpt s ops) ∧
      (runOpsFrom maxOpt s ops).counter ≤ s.counter + totalInserted ops := by
  intro ops
  induction ops with
  | nil =>
    intro s d hnd heq _
    refine ⟨hnd, ?_, ?_⟩
    · show s.counter = entrySizesSum s.cache + (d + leakedFrom maxOpt s [])
      have h0 : leakedFrom maxOpt s [] = 0 := rfl
      omega
    · show s.counter ≤ s.counter + totalInserted []
      exact Nat.le_add_right _ _
  | cons op rest ih =>
    intro s d hnd heq hlt
    have hti : totalInserted (op :: rest) = opInsertSize op + totalInserted rest := by
      simp [totalInserted]
    rw [hti] at hlt
    obtain ⟨a1, b1, c1⟩ := applyOp_spec maxOpt s op d hnd heq (by omega)
    obtain ⟨a2, b2, c2⟩ := ih (applyOp maxOpt s op) (d + opLeak s op) a1 b1
      (by omega)
    refine ⟨a2, ?_, ?_⟩
    · show (runOpsFrom maxOpt (applyOp maxOpt s op) rest).counter =
        entrySizesSum (runOpsFrom maxOpt (applyOp maxOpt s op) rest).cache +
          (d + (opLeak s op + leakedFrom maxOpt (applyOp maxOpt s op) rest))
      omega
    · show (runOpsFrom maxOpt (applyOp maxOpt s op) rest).counter ≤
        s.counter + totalInserted (op :: rest)
      rw [hti]
      omega

/--
Claim C3 (amended): after any sequential sequence of cache lookups
(including expired-entry removals), inserts, and eviction passes —
with fewer than `2^64` total bytes inserted, so the `usize` counter
never wraps — `cache_current_size` equals the sum of `entry.size` over
the entries in the cache *plus* the bytes leaked by expired-entry
removals and same-key overwrites, which do not decrement the counter;
in particular the counter is an over-approximation
(`sum(entry.size) ≤ cache_current_size`), with equality only for
histories that never removed an expired entry or overwrote a key.
-/
theorem c3_size_accounting :
    ∀ (maxOpt : Option ℕ) (ops : List CacheOp), totalInserted ops < W64 →
      (runOps maxOpt ops).counter =
        entrySizesSum (runOps maxOpt ops).cache + leakedOps maxOpt ops ∧
      entrySizesSum (runOps maxOpt ops).cache ≤ (runOps maxOpt ops).counter := by
  intro maxOpt ops h
  obtain ⟨-, b, -⟩ := runOpsFrom_spec maxOpt ops { cache := [], counter := 0 }
    0 List.nodup_nil (by simp [entrySizesSum]) (by simpa using h)
  have hb : (runOps maxOpt ops).counter =
      entrySizesSum (runOps maxOpt ops).cache + leakedOps maxOpt ops := by
    show (runOpsFrom maxOpt { cache := [], counter := 0 } ops).counter =
      entrySizesSum (runOpsFrom maxOpt { cache := [], counter := 0 } ops).cache +
        leakedFrom maxOpt { cache := [], counter := 0 } ops
    omega
  exact ⟨hb, by omega⟩

/-- Claim C3 witness: the accounting relation applied to the
counterexample history — the counter exceeds the stored total by
exactly the 5 leaked bytes. -/
theorem c3_size_accounting_witness :
    (runOps none c3CexOps).counter =
      entrySizesSum (runOps none c3CexOps).cache + leakedOps none c3CexOps ∧
    entrySizesSum (runOps none c3CexOps).cache ≤ (runOps none c3CexOps).counter :=
  c3_size_accounting none c3CexOps (by decide)

end Serava
